import Mathlib

/-!
Verification of the event interchange codec of the obsidian-full-calendar-ng
tool scripts: the frontmatter micro-parser and daily aggregator of
`tools/fullnote-to-dailynote-converter.py`, and the event generator and
filename codec of `tools/generate_full_note_calendar.py`.

Strings are modelled as Lean `String` (lists of Unicode characters);
Python's whitespace and line-break character classes are reproduced
explicitly below.
-/

namespace FullCal

/-- Python's whitespace class for `str.strip()` and the regex class for the
six ASCII whitespace characters plus the remaining characters for which
`str.isspace()` holds (CPython's Unicode whitespace table). -/
def isPySpace (c : Char) : Bool :=
  c = ' ' || c = '\t' || c = '\n' || c = '\x0b' || c = '\x0c' || c = '\r' ||
  c = '\x1c' || c = '\x1d' || c = '\x1e' || c = '\x1f' || c = '\x85' ||
  c = ' ' || c = ' ' ||
  (' ' ≤ c && c ≤ ' ') ||
  c = ' ' || c = ' ' || c = ' ' || c = ' ' || c = '　'

/-- The line-boundary characters of Python's `str.splitlines()`
(besides the two-character boundary `"\r\n"`, handled separately). -/
def isLineBreak (c : Char) : Bool :=
  c = '\n' || c = '\r' || c = '\x0b' || c = '\x0c' ||
  c = '\x1c' || c = '\x1d' || c = '\x1e' || c = '\x85' ||
  c = ' ' || c = ' '

/-- Does `pat` occur at the head of `l`? (`leadsWith pat l` is true when
`l` begins with the character sequence `pat`.) -/
def leadsWith : List Char → List Char → Bool
  | [], _ => true
  | _ :: _, [] => false
  | p :: ps, c :: cs => p = c && leadsWith ps cs

/-- Split `l` at the leftmost occurrence of `pat`: returns the part before
the occurrence and the part after it (the occurrence itself removed). -/
def splitOnPat (pat : List Char) : List Char → Option (List Char × List Char)
  | [] => none
  | c :: rest =>
    if leadsWith pat (c :: rest) then some ([], (c :: rest).drop pat.length)
    else
      match splitOnPat pat rest with
      | some pq => some (c :: pq.1, pq.2)
      | none => none

/-- The closing delimiter pattern `"\n---"` of the frontmatter regex. -/
def nlDashes : List Char := ['\n', '-', '-', '-']

/-- Three dashes, the opening delimiter. -/
def dashes3 : List Char := ['-', '-', '-']

/-- Matcher for the tail `\s*\n(.*?)\n---` of the converter's regex
`^---\s*\n(.*?)\n---\s*` (with `re.DOTALL`): greedy `\s*` with
backtracking, then `\n`, then the shortest group ended by `"\n---"`.
Returns the group and the text following the matched `"\n---"`. -/
def matchAfterWs : List Char → Option (List Char × List Char)
  | [] => none
  | c :: rest =>
    if isPySpace c then
      match matchAfterWs rest with
      | some r => some r
      | none => if c = '\n' then splitOnPat nlDashes rest else none
    else none

/-- Python `re.match(r"^---\s*\n(.*?)\n---\s*", text, re.DOTALL)`, reduced to the
data the converter uses: the captured group and the text after the closing
`"\n---"` (the trailing `\s*` is consumed by the caller). `none` when the
regex does not match, i.e. when the text lacks a well-formed pair of
delimiter lines. -/
def matchFM (text : List Char) : Option (List Char × List Char) :=
  if leadsWith dashes3 text then matchAfterWs (text.drop 3) else none

/-- Worker for `splitlinesL`, carrying the current line reversed. A
`'\r'` immediately followed by `'\n'` is one boundary. -/
def splitlinesGo : List Char → List Char → List (List Char)
  | acc, [] => if acc.isEmpty then [] else [acc.reverse]
  | acc, [c] =>
    if isLineBreak c then acc.reverse :: splitlinesGo [] []
    else splitlinesGo (c :: acc) []
  | acc, c :: c2 :: rest =>
    if c = '\r' && c2 = '\n' then acc.reverse :: splitlinesGo [] rest
    else if isLineBreak c then acc.reverse :: splitlinesGo [] (c2 :: rest)
    else splitlinesGo (c :: acc) (c2 :: rest)

/-- Python `str.splitlines()`: split at every line boundary, treating
`"\r\n"` as a single boundary and producing no trailing empty line. -/
def splitlinesL (l : List Char) : List (List Char) :=
  splitlinesGo [] l

/-- Remove the trailing run of Python whitespace. -/
def dropTrail : List Char → List Char
  | [] => []
  | c :: rest =>
    match dropTrail rest with
    | [] => if isPySpace c then [] else [c]
    | r => c :: r

/-- Python `str.strip()`: remove leading and trailing whitespace. -/
def pyStrip (l : List Char) : List Char :=
  dropTrail (l.dropWhile isPySpace)

/-- Python dict assignment `d[k] = v` on an insertion-ordered association
list: overwrite in place when the key exists, otherwise append. -/
def dictInsert (m : List (String × String)) (k v : String) : List (String × String) :=
  if m.any (fun kv => kv.1 = k) then
    m.map (fun kv => if kv.1 = k then (k, v) else kv)
  else m ++ [(k, v)]

/-- One iteration of the converter's frontmatter loop: if the line contains
`':'`, split at the first `':'`, strip key and value, and assign. Lines
without `':'` are ignored. -/
def parseLine (m : List (String × String)) (line : List Char) : List (String × String) :=
  match splitOnPat [':'] line with
  | none => m
  | some kv => dictInsert m (String.mk (pyStrip kv.1)) (String.mk (pyStrip kv.2))

/-- Function `extract_frontmatter` of `tools/fullnote-to-dailynote-converter.py`:
match the delimiter regex; on failure return `({}, text)`; on success parse
each `key: value` line of the captured group into the mapping and strip
the remaining text for the body. -/
def extract_frontmatter (text : String) : List (String × String) × String :=
  match matchFM text.data with
  | none => ([], text)
  | some gp =>
    let body := pyStrip (gp.2.dropWhile isPySpace)
    ((splitlinesL gp.1).foldl parseLine [], String.mk body)

/-- Python `frontmatter.get(k, dflt)` on the association-list model. -/
def pyGet (m : List (String × String)) (k dflt : String) : String :=
  match m.find? (fun kv => kv.1 = k) with
  | some kv => kv.2
  | none => dflt

/-- The checkbox token of `process_markdown_file`: Python
`"[x]" if bool(completed) else "[ ]"` when `completed` is non-empty
(`bool` of a non-empty string is `True`), else the empty string. -/
def mkCheckbox (completed : String) : String :=
  if completed ≠ "" then (if completed ≠ "" then "[x]" else "[ ]") else ""

/-- The synthesized event line of `process_markdown_file`, from the
frontmatter mapping (f-string concatenation made explicit). -/
def mkEventLine (fm : List (String × String)) : String :=
  let title := pyGet fm "title" "Untitled"
  let timezone := pyGet fm "timezone" ""
  let start := pyGet fm "startTime" ""
  let stop := pyGet fm "endTime" ""
  let end_date := pyGet fm "endDate" ""
  let completed := pyGet fm "completed" ""
  let checkbox := mkCheckbox completed
  if end_date ≠ "" then
    "- " ++ checkbox ++ " " ++ title ++ "  [startTime:: " ++ start ++
      "]  [endTime:: " ++ stop ++ "]  [endDate:: " ++ end_date ++
      "]  [timezone:: " ++ timezone ++ "]"
  else
    "- " ++ checkbox ++ " " ++ title ++ "  [startTime:: " ++ start ++
      "]  [endTime:: " ++ stop ++ "]  [timezone:: " ++ timezone ++ "]"

/-- The per-date accumulator entry of `events_by_date`. -/
structure DayData where
  events : List String
  diary : List String
deriving DecidableEq, Repr

/-- Model of `events_by_date[date]["events"].append(line)` followed by the
conditional diary append, on the insertion-ordered `defaultdict` model. -/
def addEntry (st : List (String × DayData)) (date line body : String) :
    List (String × DayData) :=
  if st.any (fun e => e.1 = date) then
    st.map (fun e =>
      if e.1 = date then
        (date, ⟨e.2.events ++ [line], if body ≠ "" then e.2.diary ++ [body] else e.2.diary⟩)
      else e)
  else st ++ [(date, ⟨[line], if body ≠ "" then [body] else []⟩)]

/-- Function `process_markdown_file` of the converter, on the note's text: skip
notes not starting with `"---"`, extract frontmatter, skip when the
`date` key is missing or empty, otherwise append the synthesized event
line (and non-empty body) to the date's entry. -/
def process_markdown_file (st : List (String × DayData)) (content : String) :
    List (String × DayData) :=
  if leadsWith dashes3 content.data then
    let fb := extract_frontmatter content
    let date := pyGet fb.1 "date" ""
    if date ≠ "" then addEntry st date (mkEventLine fb.1) fb.2 else st
  else st

/-- The text `write_aggregated_files` writes for one date. -/
def render_day (d : DayData) : String :=
  "## Events\n" ++ String.join (d.events.map (fun e => e ++ "\n")) ++
  "## Diary\n" ++ String.join (d.diary.map (fun e => e ++ "\n"))

/-- Function `write_aggregated_files` of the converter, with filesystem writes made
explicit: `fail p = true` models `open(p, "w")` (or the write) raising
`OSError`. The loop body has no exception handler, so a raised error
propagates out of the function: the result is the list of files actually
written (name, content) before the failure, and the failing filename when
a write raised. -/
def write_aggregated_files (fail : String → Bool) :
    List (String × DayData) → List (String × String) × Option String
  | [] => ([], none)
  | (date, data) :: rest =>
    let path := date ++ ".md"
    if fail path then ([], some path)
    else
      let r := write_aggregated_files fail rest
      ((path, render_day data) :: r.1, r.2)

/-- Modelled from the spec: re-serialization of an extracted frontmatter
mapping "as flat `key: value` lines between `---` delimiters" (the
round-trip direction of §8 is not implemented by any script, so its
serializer is taken from the spec's words). -/
def serializeFM (m : List (String × String)) : String :=
  "---\n" ++ String.join (m.map (fun kv => kv.1 ++ ": " ++ kv.2 ++ "\n")) ++ "---\n"

def c2note : String :=
  "--- \ndate: 2025-07-21\ntitle: Call\nstartTime: 09:00\nendTime: 10:00\ntimezone: Europe/Budapest\ncompleted: true\n---\nFollowed up."

def c2out : String :=
  "## Events\n- [x] Call  [startTime:: 09:00]  [endTime:: 10:00]  [timezone:: Europe/Budapest]\n## Diary\nFollowed up.\n"

def c6block : String := "---\na: 1\r---x: v\n---\n"

/-- The `SingleEvent` dataclass of `tools/generate_full_note_calendar.py`
(the `date` field is kept as its ISO string; times are minutes-of-day). -/
structure SingleEvent where
  date : String
  all_day : Bool
  start : Option Nat
  stop : Option Nat
  tz : String
  category : Option String
  subcategory : Option String
  title : String
deriving DecidableEq, Repr

/-- The `RecurringEvent` dataclass of `tools/generate_full_note_calendar.py`. -/
structure RecurringEvent where
  days_of_week : Option (List String)
  month : Option Nat
  day_of_month : Option Nat
  start_time : Option Nat
  end_time : Option Nat
  tz : String
  category : Option String
  subcategory : Option String
  title : String
deriving DecidableEq, Repr

/-- Function `gen_single_event`, with every pseudo-random draw passed in explicitly:
`allDayDraw` is `random.random() < 0.2`, `sod` is
`random.randint(7*60, 10*60)`, `off` the choice from
`[0,15,30,45,60,90,120]`, `dur` the choice from `[30,45,60,75,90,120,150]`,
and `tz`, `cat`, `sub`, `title` the remaining choices. -/
def gen_single_event (d : String) (allDayDraw : Bool) (sod off dur : Nat)
    (tz cat sub title : String) : SingleEvent :=
  if allDayDraw then
    ⟨d, true, none, none, tz, some cat, some sub, title⟩
  else
    let start := sod + off
    ⟨d, false, some start, some (min (start + dur) (22 * 60)), tz, some cat, some sub, title⟩

/-- Function `gen_recurring_event`, with every pseudo-random draw passed in
explicitly: `r` is `random.random()`; the weekly branch (`r < 0.6`) uses
`days` (= `random.sample(DOW[1:6], k)`), `startW`, `durW`; the monthly
branch (`0.6 ≤ r < 0.85`) uses `domM`, `startM`, `durM`; the yearly branch
uses `monthY`, `domY`, `startY`, `durY`. -/
def gen_recurring_event (r : ℚ) (days : List String) (startW durW : Nat)
    (domM startM durM : Nat) (monthY domY startY durY : Nat)
    (tz cat sub title : String) : RecurringEvent :=
  if r < 3 / 5 then
    ⟨some days, none, none, some startW, some (startW + durW), tz, some cat, some sub, title⟩
  else if r < 17 / 20 then
    ⟨none, none, some domM, some startM, some (startM + durM), tz, some cat, some sub, title⟩
  else
    ⟨none, some monthY, some domY, some startY, some (startY + durY), tz, some cat, some sub, title⟩

/-- Python truthiness of an `Optional[List[str]]`. -/
def truthyList : Option (List String) → Bool
  | none => false
  | some l => !l.isEmpty

/-- Python truthiness of an `Optional[int]`. -/
def truthyNat : Option Nat → Bool
  | none => false
  | some n => n != 0

/-- Python truthiness of an `Optional[str]`. -/
def truthyStr : Option String → Bool
  | none => false
  | some s => s != ""

/-- Function `build_constructed_title` of `tools/generate_full_note_calendar.py`. -/
def build_constructed_title (category subcategory : Option String) (title : String) : String :=
  if truthyStr category && truthyStr subcategory then
    category.getD "" ++ " - " ++ subcategory.getD "" ++ " - " ++ title
  else if truthyStr category then
    category.getD "" ++ " - " ++ title
  else title

/-- Python's `calendar.month_abbr` (C locale): index 0 is empty, 1–12 are
the fixed month abbreviations. -/
def calendar_month_abbr : List String :=
  ["", "Jan", "Feb", "Mar", "Apr", "May", "Jun", "Jul", "Aug", "Sep", "Oct", "Nov", "Dec"]

/-- The filename computed by `write_recurring` (its `base` plus `".md"`),
following the branch structure on Python truthiness of the recurrence
fields. -/
def recurring_filename (ev : RecurringEvent) : String :=
  let ct := build_constructed_title ev.category ev.subcategory ev.title
  let base :=
    if truthyList ev.days_of_week then
      "(Every " ++ String.intercalate "," (ev.days_of_week.getD []) ++ ") " ++ ct
    else if truthyNat ev.month && truthyNat ev.day_of_month then
      "(Every year on " ++ calendar_month_abbr.getD (ev.month.getD 0) "" ++ " " ++
        toString (ev.day_of_month.getD 0) ++ ") " ++ ct
    else if truthyNat ev.day_of_month then
      "(Every month on the " ++ toString (ev.day_of_month.getD 0) ++ ") " ++ ct
    else "(Recurring) " ++ ct
  base ++ ".md"

/-- The Monday–Friday population `DOW[1:6]` sampled by the weekly branch. -/
def dowWeekdays : List String := ["M", "T", "W", "R", "F"]

/-- Weekly recurrence dimension populated: `days_of_week` a non-empty
list, `month` and `day_of_month` unset. -/
def weeklyDimB (ev : RecurringEvent) : Bool :=
  truthyList ev.days_of_week && ev.month == none && ev.day_of_month == none

/-- Monthly recurrence dimension populated: `day_of_month` set without
`month`, `days_of_week` unset. -/
def monthlyDimB (ev : RecurringEvent) : Bool :=
  ev.days_of_week == none && ev.month == none && ev.day_of_month != none

/-- Yearly recurrence dimension populated: `month` and `day_of_month`
both set, `days_of_week` unset. -/
def yearlyDimB (ev : RecurringEvent) : Bool :=
  ev.days_of_week == none && ev.month != none && ev.day_of_month != none

/-- The character content of one serialized frontmatter line `k: v`,
without its terminating newline. -/
def lineNoNl (kv : String × String) : List Char :=
  kv.1.data ++ ':' :: ' ' :: kv.2.data

/-- The characters of a serialized frontmatter block after its first
line-feed: each `k: v` line with its newline, then the closing `---`
line. -/
def tailBlock (m : List (String × String)) : List Char :=
  m.foldr (fun kv acc => lineNoNl kv ++ '\n' :: acc) ['-', '-', '-', '\n']

/-- The regex group captured when re-parsing a serialized block headed by
one further line: newline-separated continuation lines. -/
def groupTail (m : List (String × String)) : List Char :=
  m.foldr (fun kv acc => '\n' :: (lineNoNl kv ++ acc)) []

/-- No key other than the first begins with `---` (the side condition
under which serializing a parsed mapping re-parses exactly). -/
def noLateDashKeys (m : List (String × String)) : Bool :=
  match m with
  | [] => true
  | _ :: rest => rest.all (fun kv => !leadsWith dashes3 kv.1.data)

/-- No line-boundary character occurs in `l`. -/
def noBreakL (l : List Char) : Prop :=
  ∀ c ∈ l, isLineBreak c = false

/-- The list `l` carries no leading and no trailing Python whitespace. -/
def StrippedL (l : List Char) : Prop :=
  l.dropWhile isPySpace = l ∧ dropTrail l = l

/-- Structural invariant of every key/value pair the parser produces:
both sides stripped and line-break-free, and the key colon-free. -/
def GoodPair (kv : String × String) : Prop :=
  StrippedL kv.1.data ∧ StrippedL kv.2.data ∧ ':' ∉ kv.1.data ∧
    noBreakL kv.1.data ∧ noBreakL kv.2.data

/-- Structural invariant of every mapping the parser produces. -/
def GoodMap (m : List (String × String)) : Prop :=
  (∀ kv ∈ m, GoodPair kv) ∧ (m.map Prod.fst).Nodup

/- ------------------------------------------------------------------ -/
/- Theorems                                                           -/
/- ------------------------------------------------------------------ -/

theorem str_append_assoc (a b c : String) : a ++ b ++ c = a ++ (b ++ c) := by
  cases a; cases b; cases c
  show String.mk _ = String.mk _
  rw [List.append_assoc]

/- Helper lemmas about `splitOnPat` and `leadsWith`. -/

theorem leadsWith_cons_ne {p0 c : Char} (pat cs : List Char) (h : p0 ≠ c) :
    leadsWith (p0 :: pat) (c :: cs) = false := by
  simp [leadsWith, h]

theorem splitOnPat_cons (pat : List Char) (c : Char) (rest : List Char) :
    splitOnPat pat (c :: rest) =
      if leadsWith pat (c :: rest) then some ([], (c :: rest).drop pat.length)
      else
        match splitOnPat pat rest with
        | some pq => some (c :: pq.1, pq.2)
        | none => none := rfl

theorem splitOnPat_append_left {p0 : Char} (pat : List Char) :
    ∀ (a b : List Char), p0 ∉ a →
      splitOnPat (p0 :: pat) (a ++ b) =
        (splitOnPat (p0 :: pat) b).map (fun pq => (a ++ pq.1, pq.2)) := by
  intro a
  induction a with
  | nil =>
    intro b _
    cases hb : splitOnPat (p0 :: pat) b <;> simp [hb]
  | cons c a ih =>
    intro b hmem
    have hc : p0 ≠ c := fun hpc => hmem (hpc ▸ List.mem_cons_self c a)
    have hna : p0 ∉ a := fun hx => hmem (List.mem_cons_of_mem c hx)
    rw [List.cons_append, splitOnPat_cons, if_neg (by simp [leadsWith_cons_ne pat _ hc]),
      ih b hna]
    cases splitOnPat (p0 :: pat) b <;> simp

theorem splitOnPat_colon (a b : List Char) (h : ':' ∉ a) :
    splitOnPat [':'] (a ++ ':' :: b) = some (a, b) := by
  rw [splitOnPat_append_left [] a (':' :: b) h, splitOnPat_cons,
    if_pos (by simp [leadsWith])]
  simp

theorem splitOnPat_colon_not_mem :
    ∀ (l a b : List Char), splitOnPat [':'] l = some (a, b) → ':' ∉ a := by
  intro l
  induction l with
  | nil => intro a b h; simp [splitOnPat] at h
  | cons c rest ih =>
    intro a b h
    rw [splitOnPat_cons] at h
    by_cases hl : leadsWith [':'] (c :: rest) = true
    · rw [if_pos hl] at h
      simp only [Option.some.injEq, Prod.mk.injEq] at h
      rw [← h.1]
      exact List.not_mem_nil ':'
    · rw [if_neg hl] at h
      have hc : c ≠ ':' := by
        intro hcc
        exact hl (by simp [leadsWith, hcc])
      cases hsp : splitOnPat [':'] rest with
      | none => rw [hsp] at h; simp at h
      | some pq =>
        rw [hsp] at h
        simp only [Option.some.injEq, Prod.mk.injEq] at h
        intro hmem
        rw [← h.1] at hmem
        rcases List.mem_cons.mp hmem with hx | hx
        · exact hc hx.symm
        · exact ih pq.1 pq.2 (by rw [hsp]) hx

theorem splitOnPat_subset :
    ∀ (pat l a b : List Char), splitOnPat pat l = some (a, b) →
      (∀ x ∈ a, x ∈ l) ∧ (∀ x ∈ b, x ∈ l) := by
  intro pat l
  induction l with
  | nil => intro a b h; simp [splitOnPat] at h
  | cons c rest ih =>
    intro a b h
    rw [splitOnPat_cons] at h
    by_cases hl : leadsWith pat (c :: rest) = true
    · rw [if_pos hl] at h
      simp only [Option.some.injEq, Prod.mk.injEq] at h
      constructor
      · intro x hx; rw [← h.1] at hx; simp at hx
      · intro x hx
        rw [← h.2] at hx
        exact List.mem_of_mem_drop hx
    · rw [if_neg hl] at h
      cases hsp : splitOnPat pat rest with
      | none => rw [hsp] at h; simp at h
      | some pq =>
        rw [hsp] at h
        simp only [Option.some.injEq, Prod.mk.injEq] at h
        obtain ⟨iha, ihb⟩ := ih pq.1 pq.2 (by rw [hsp])
        constructor
        · intro x hx
          rw [← h.1] at hx
          rcases List.mem_cons.mp hx with hx | hx
          · exact hx ▸ List.mem_cons_self c rest
          · exact List.mem_cons_of_mem c (iha x hx)
        · intro x hx
          rw [← h.2] at hx
          exact List.mem_cons_of_mem c (ihb x hx)

/- Helper lemmas about stripping. -/

theorem dropWhile_dropWhile (p : Char → Bool) (l : List Char) :
    (l.dropWhile p).dropWhile p = l.dropWhile p := by
  induction l with
  | nil => rfl
  | cons c rest ih =>
    by_cases h : p c <;> simp [List.dropWhile_cons, h, ih]

theorem dropTrail_cons (c : Char) (rest : List Char) :
    dropTrail (c :: rest) =
      match dropTrail rest with
      | [] => if isPySpace c then [] else [c]
      | r => c :: r := rfl

theorem dropTrail_dropTrail (l : List Char) : dropTrail (dropTrail l) = dropTrail l := by
  induction l with
  | nil => rfl
  | cons c rest ih =>
    cases hr : dropTrail rest with
    | nil =>
      by_cases h : isPySpace c
      · have h1 : dropTrail (c :: rest) = [] := by rw [dropTrail_cons, hr]; simp [h]
        rw [h1]
        rfl
      · have h1 : dropTrail (c :: rest) = [c] := by rw [dropTrail_cons, hr]; simp [h]
        rw [h1, dropTrail_cons]
        simp [dropTrail, h]
    | cons r rs =>
      have h1 : dropTrail (c :: rest) = c :: r :: rs := by rw [dropTrail_cons, hr]
      have h2 : dropTrail (r :: rs) = r :: rs := by rw [← hr]; exact ih
      rw [h1, dropTrail_cons, h2]

theorem dropWhile_dropTrail (l : List Char) (h : l.dropWhile isPySpace = l) :
    (dropTrail l).dropWhile isPySpace = dropTrail l := by
  cases l with
  | nil => rfl
  | cons c rest =>
    have hc : isPySpace c = false := by
      by_contra hc
      have hc2 : isPySpace c = true := by simpa using hc
      rw [List.dropWhile_cons, if_pos (by simp [hc2])] at h
      have hlen := congrArg List.length h
      have hle : (rest.dropWhile isPySpace).length ≤ rest.length :=
        (List.dropWhile_sublist isPySpace).length_le
      simp at hlen
      omega
    rw [dropTrail_cons]
    cases hr : dropTrail rest with
    | nil =>
      simp [hc]
    | cons r rs =>
      simp [List.dropWhile_cons, hc]

theorem strippedL_pyStrip (l : List Char) : StrippedL (pyStrip l) := by
  constructor
  · exact dropWhile_dropTrail _ (dropWhile_dropWhile isPySpace l)
  · exact dropTrail_dropTrail _

theorem pyStrip_eq_self (l : List Char) (h : StrippedL l) : pyStrip l = l := by
  rw [pyStrip, h.1, h.2]

theorem mem_dropTrail : ∀ (l : List Char) (x : Char), x ∈ dropTrail l → x ∈ l := by
  intro l
  induction l with
  | nil => intro x h; exact absurd h (List.not_mem_nil x)
  | cons c rest ih =>
    intro x h
    rw [dropTrail_cons] at h
    cases hr : dropTrail rest with
    | nil =>
      rw [hr] at h
      by_cases hc : isPySpace c
      · simp [hc] at h
      · simp [hc] at h
        exact h ▸ List.mem_cons_self c rest
    | cons r rs =>
      rw [hr] at h
      have h2 : x ∈ c :: r :: rs := h
      rcases List.mem_cons.mp h2 with hx | hx
      · exact hx ▸ List.mem_cons_self c rest
      · exact List.mem_cons_of_mem c (ih x (by rw [hr]; exact hx))

theorem mem_pyStrip (l : List Char) (x : Char) (h : x ∈ pyStrip l) : x ∈ l := by
  have h1 := mem_dropTrail _ x h
  exact List.Sublist.mem h1 (List.dropWhile_sublist isPySpace)

theorem pyStrip_cons_space (c : Char) (l : List Char) (h : isPySpace c = true) :
    pyStrip (c :: l) = pyStrip l := by
  rw [pyStrip, List.dropWhile_cons, if_pos (by simp [h])]
  rfl

theorem stripped_head_nonspace (l : List Char) (h : StrippedL l) :
    l = [] ∨ ∃ c r, l = c :: r ∧ isPySpace c = false := by
  cases l with
  | nil => exact Or.inl rfl
  | cons c rest =>
    refine Or.inr ⟨c, rest, rfl, ?_⟩
    by_contra hc
    have hc2 : isPySpace c = true := by simpa using hc
    have h1 := h.1
    rw [List.dropWhile_cons, if_pos (by simp [hc2])] at h1
    have hlen := congrArg List.length h1
    have hle : (rest.dropWhile isPySpace).length ≤ rest.length :=
      (List.dropWhile_sublist isPySpace).length_le
    simp at hlen
    omega

theorem dash_space_prefix (z : String) : "- " ++ ("" ++ (" " ++ z)) = "-  " ++ z := by
  rw [← str_append_assoc, ← str_append_assoc]
  have h : "- " ++ "" ++ " " = "-  " := by decide
  rw [h]

/- Helper lemmas about `splitlinesGo`. -/

theorem sg_nil (acc : List Char) :
    splitlinesGo acc [] = if acc.isEmpty then [] else [acc.reverse] := rfl

theorem sg_two_crlf (acc : List Char) (c c2 : Char) (rest : List Char)
    (h : (c = '\r' && c2 = '\n') = true) :
    splitlinesGo acc (c :: c2 :: rest) = acc.reverse :: splitlinesGo [] rest := by
  simp [splitlinesGo, h]

theorem sg_two_break (acc : List Char) (c c2 : Char) (rest : List Char)
    (hcc : (c = '\r' && c2 = '\n') = false) (hc : isLineBreak c = true) :
    splitlinesGo acc (c :: c2 :: rest) = acc.reverse :: splitlinesGo [] (c2 :: rest) := by
  simp [splitlinesGo, hcc, hc]

theorem sg_two_nonbreak (acc : List Char) (c c2 : Char) (rest : List Char)
    (hcc : (c = '\r' && c2 = '\n') = false) (hc : isLineBreak c = false) :
    splitlinesGo acc (c :: c2 :: rest) = splitlinesGo (c :: acc) (c2 :: rest) := by
  simp [splitlinesGo, hcc, hc]

theorem sg_cons_nonbreak (acc : List Char) (c : Char) (rest : List Char)
    (h : isLineBreak c = false) :
    splitlinesGo acc (c :: rest) = splitlinesGo (c :: acc) rest := by
  have hr : c ≠ '\r' := by
    intro hc; subst hc; simp [isLineBreak] at h
  cases rest with
  | nil => simp [splitlinesGo, h]
  | cons c2 rest2 =>
    exact sg_two_nonbreak acc c c2 rest2 (by simp [hr]) h

theorem sg_nl (acc rest : List Char) :
    splitlinesGo acc ('\n' :: rest) = acc.reverse :: splitlinesGo [] rest := by
  cases rest with
  | nil => simp [splitlinesGo, isLineBreak]
  | cons c2 rest2 =>
    exact sg_two_break acc '\n' c2 rest2 (by simp) (by simp [isLineBreak])

theorem sg_append_noBreak :
    ∀ (L acc r : List Char), (∀ c ∈ L, isLineBreak c = false) →
      splitlinesGo acc (L ++ r) = splitlinesGo (L.reverse ++ acc) r := by
  intro L
  induction L with
  | nil => intro acc r _; simp
  | cons c L ih =>
    intro acc r h
    rw [List.cons_append, sg_cons_nonbreak _ _ _ (h c (List.mem_cons_self c L)),
      ih (c :: acc) r (fun x hx => h x (List.mem_cons_of_mem c hx))]
    simp

theorem sg_mem_noBreak :
    ∀ (n : Nat) (l acc : List Char), l.length ≤ n →
      (∀ c ∈ acc, isLineBreak c = false) →
      ∀ L ∈ splitlinesGo acc l, ∀ c ∈ L, isLineBreak c = false := by
  intro n
  induction n with
  | zero =>
    intro l acc hl hacc L hL
    have hnil : l = [] := List.length_eq_zero.mp (Nat.le_zero.mp hl)
    subst hnil
    rw [sg_nil] at hL
    by_cases he : acc.isEmpty
    · simp [he] at hL
    · simp [he] at hL
      subst hL
      intro c hc
      exact hacc c (List.mem_reverse.mp hc)
  | succ n ih =>
    intro l acc hl hacc L hL
    cases l with
    | nil =>
      rw [sg_nil] at hL
      by_cases he : acc.isEmpty
      · simp [he] at hL
      · simp [he] at hL
        subst hL
        intro c hc
        exact hacc c (List.mem_reverse.mp hc)
    | cons c rest =>
      cases rest with
      | nil =>
        by_cases hc : isLineBreak c
        · rw [show splitlinesGo acc [c] = acc.reverse :: splitlinesGo [] [] from by
            simp [splitlinesGo, hc]] at hL
          rcases List.mem_cons.mp hL with hx | hx
          · subst hx
            intro x hx
            exact hacc x (List.mem_reverse.mp hx)
          · simp [splitlinesGo] at hx
        · rw [show splitlinesGo acc [c] = splitlinesGo (c :: acc) [] from by
            simp [splitlinesGo, hc]] at hL
          rw [sg_nil] at hL
          simp at hL
          rw [hL]
          intro x hx
          rcases List.mem_append.mp hx with h1 | h1
          · exact hacc x (List.mem_reverse.mp h1)
          · simp at h1
            subst h1
            simpa using hc
      | cons c2 rest2 =>
        by_cases hcc : (c = '\r' && c2 = '\n') = true
        · rw [sg_two_crlf acc c c2 rest2 hcc] at hL
          rcases List.mem_cons.mp hL with hx | hx
          · subst hx
            intro x hx
            exact hacc x (List.mem_reverse.mp hx)
          · exact ih rest2 [] (by simp at hl; omega) (by simp) L hx
        · have hcc2 : (c = '\r' && c2 = '\n') = false := by simpa using hcc
          by_cases hc : isLineBreak c
          · rw [sg_two_break acc c c2 rest2 hcc2 hc] at hL
            rcases List.mem_cons.mp hL with hx | hx
            · subst hx
              intro x hx
              exact hacc x (List.mem_reverse.mp hx)
            · exact ih (c2 :: rest2) [] (by simp at hl ⊢; omega) (by simp) L hx
          · rw [sg_two_nonbreak acc c c2 rest2 hcc2 (by simpa using hc)] at hL
            refine ih (c2 :: rest2) (c :: acc) (by simp at hl ⊢; omega) ?_ L hL
            intro x hx
            rcases List.mem_cons.mp hx with h1 | h1
            · subst h1
              simpa using hc
            · exact hacc x h1

theorem splitlines_mem_noBreak (l : List Char) :
    ∀ L ∈ splitlinesL l, ∀ c ∈ L, isLineBreak c = false :=
  sg_mem_noBreak l.length l [] (Nat.le_refl _) (by simp)

theorem sg_groupTail :
    ∀ (rest : List (String × String)) (L : List Char), L ≠ [] →
      (∀ c ∈ L, isLineBreak c = false) →
      (∀ kv ∈ rest, (∀ c ∈ lineNoNl kv, isLineBreak c = false) ∧ lineNoNl kv ≠ []) →
      splitlinesGo L.reverse (groupTail rest) = L :: rest.map lineNoNl := by
  intro rest
  induction rest with
  | nil =>
    intro L hne _ _
    show splitlinesGo L.reverse [] = [L]
    rw [sg_nil, if_neg (by simpa using fun h => hne (by simpa using h)), List.reverse_reverse]
  | cons kv rest ih =>
    intro L hne hnb hrest
    show splitlinesGo L.reverse ('\n' :: (lineNoNl kv ++ groupTail rest)) = _
    rw [sg_nl, List.reverse_reverse,
      sg_append_noBreak _ [] _ (hrest kv (List.mem_cons_self kv rest)).1,
      List.append_nil,
      ih (lineNoNl kv) (hrest kv (List.mem_cons_self kv rest)).2
        (hrest kv (List.mem_cons_self kv rest)).1
        (fun e he => hrest e (List.mem_cons_of_mem kv he))]
    rfl

/- Helper lemmas about `dictInsert` and the frontmatter fold. -/

theorem dictInsert_fresh (m : List (String × String)) (k v : String)
    (h : m.any (fun kv => kv.1 = k) = false) :
    dictInsert m k v = m ++ [(k, v)] := by
  rw [dictInsert, if_neg (by simp [h])]

theorem mem_dictInsert (m : List (String × String)) (k v : String) (x : String × String)
    (h : x ∈ dictInsert m k v) : x ∈ m ∨ x = (k, v) := by
  rw [dictInsert] at h
  by_cases ha : m.any (fun kv => kv.1 = k) = true
  · rw [if_pos (by simp [ha])] at h
    obtain ⟨kv, hkv, hx⟩ := List.mem_map.mp h
    by_cases he : kv.1 = k
    · right
      rw [← hx, if_pos he]
    · left
      rw [← hx, if_neg he]
      exact hkv
  · rw [if_neg (by simpa using ha)] at h
    rcases List.mem_append.mp h with h1 | h1
    · exact Or.inl h1
    · right
      simpa using h1

theorem keys_dictInsert_overwrite (m : List (String × String)) (k v : String)
    (h : m.any (fun kv => kv.1 = k) = true) :
    (dictInsert m k v).map Prod.fst = m.map Prod.fst := by
  rw [dictInsert, if_pos (by simp [h]), List.map_map]
  apply List.map_congr_left
  intro kv _
  by_cases he : kv.1 = k
  · simp [Function.comp, he]
  · simp [Function.comp, he]

theorem nodup_keys_dictInsert (m : List (String × String)) (k v : String)
    (h : (m.map Prod.fst).Nodup) :
    ((dictInsert m k v).map Prod.fst).Nodup := by
  by_cases ha : m.any (fun kv => kv.1 = k) = true
  · rw [keys_dictInsert_overwrite m k v ha]
    exact h
  · have ha2 : m.any (fun kv => kv.1 = k) = false := by
      rw [← Bool.not_eq_true]
      exact ha
    have hk : k ∉ m.map Prod.fst := by
      intro hmem
      obtain ⟨kv, hkv, hfst⟩ := List.mem_map.mp hmem
      have h3 : m.any (fun kv => kv.1 = k) = true :=
        List.any_eq_true.mpr ⟨kv, hkv, by simp [hfst]⟩
      rw [h3] at ha2
      exact absurd ha2 (by simp)
    rw [dictInsert_fresh m k v ha2, List.map_append]
    simp [List.nodup_append, h, hk]

theorem goodPairs_dictInsert (m : List (String × String)) (k v : String)
    (hm : ∀ kv ∈ m, GoodPair kv) (hkv : GoodPair (k, v)) :
    ∀ x ∈ dictInsert m k v, GoodPair x := by
  intro x hx
  rcases mem_dictInsert m k v x hx with h | h
  · exact hm x h
  · rw [h]
    exact hkv

theorem goodMap_parseLine (m : List (String × String)) (L : List Char)
    (hm : GoodMap m) (hL : ∀ c ∈ L, isLineBreak c = false) :
    GoodMap (parseLine m L) := by
  unfold parseLine
  cases hsp : splitOnPat [':'] L with
  | none => exact hm
  | some ab =>
    show GoodMap (dictInsert m (String.mk (pyStrip ab.1)) (String.mk (pyStrip ab.2)))
    constructor
    · apply goodPairs_dictInsert _ _ _ hm.1
      refine ⟨?_, ?_, ?_, ?_, ?_⟩
      · exact strippedL_pyStrip ab.1
      · exact strippedL_pyStrip ab.2
      · intro hc
        exact splitOnPat_colon_not_mem L ab.1 ab.2 (by rw [hsp]) (mem_pyStrip _ _ hc)
      · intro c hc
        exact hL c ((splitOnPat_subset _ L ab.1 ab.2 (by rw [hsp])).1 c (mem_pyStrip _ _ hc))
      · intro c hc
        exact hL c ((splitOnPat_subset _ L ab.1 ab.2 (by rw [hsp])).2 c (mem_pyStrip _ _ hc))
    · exact nodup_keys_dictInsert _ _ _ hm.2

theorem goodMap_foldl (lines : List (List Char)) :
    ∀ m, GoodMap m → (∀ L ∈ lines, ∀ c ∈ L, isLineBreak c = false) →
      GoodMap (lines.foldl parseLine m) := by
  induction lines with
  | nil => intro m hm _; exact hm
  | cons L lines ih =>
    intro m hm hls
    rw [List.foldl_cons]
    exact ih _ (goodMap_parseLine m L hm (hls L (List.mem_cons_self _ _)))
      (fun L2 h2 => hls L2 (List.mem_cons_of_mem _ h2))

theorem good_extract (t : String) : GoodMap (extract_frontmatter t).1 := by
  unfold extract_frontmatter
  cases hm : matchFM t.data with
  | none =>
    exact ⟨fun kv h => absurd h (List.not_mem_nil kv), by simp⟩
  | some gp =>
    exact goodMap_foldl _ [] ⟨fun kv h => absurd h (List.not_mem_nil kv), by simp⟩
      (splitlines_mem_noBreak gp.1)

/- String-data plumbing for the serializer. -/

theorem str_data_append (s t : String) : (s ++ t).data = s.data ++ t.data := by
  cases s; cases t; rfl

theorem join_data (ls : List String) :
    (String.join ls).data = ls.foldr (fun s acc => s.data ++ acc) [] := by
  have key : ∀ (ls : List String) (s : String),
      (ls.foldl (· ++ ·) s).data = s.data ++ ls.foldr (fun s acc => s.data ++ acc) [] := by
    intro ls
    induction ls with
    | nil => intro s; simp
    | cons a ls ih =>
      intro s
      rw [List.foldl_cons, ih (s ++ a), str_data_append, List.foldr_cons, List.append_assoc]
  unfold String.join
  have h2 := key ls ""
  simpa only [show ("" : String).data = [] from rfl, List.nil_append] using h2

theorem serializeFM_data (m : List (String × String)) :
    (serializeFM m).data = '-' :: '-' :: '-' :: '\n' :: tailBlock m := by
  have hbody : ∀ (m2 : List (String × String)),
      ((m2.map (fun kv => kv.1 ++ ": " ++ kv.2 ++ "\n")).foldr
          (fun s acc => s.data ++ acc) []) ++ "---\n".data = tailBlock m2 := by
    intro m2
    induction m2 with
    | nil => decide
    | cons kv m2 ih =>
      rw [List.map_cons, List.foldr_cons, List.append_assoc, ih]
      show (kv.1 ++ ": " ++ kv.2 ++ "\n").data ++ tailBlock m2 =
        lineNoNl kv ++ '\n' :: tailBlock m2
      rw [str_data_append, str_data_append, str_data_append,
        show (": " : String).data = [':', ' '] from by decide,
        show ("\n" : String).data = ['\n'] from by decide, lineNoNl]
      simp [List.append_assoc]
  rw [serializeFM, str_data_append, str_data_append, join_data, List.append_assoc, hbody m,
    show ("---\n" : String).data = ['-', '-', '-', '\n'] from by decide]
  rfl

/- Re-parsing a serialized mapping. -/

theorem lineNoNl_noBreak (kv : String × String) (h : GoodPair kv) :
    ∀ c ∈ lineNoNl kv, isLineBreak c = false := by
  intro c hc
  rw [lineNoNl] at hc
  rcases List.mem_append.mp hc with h1 | h1
  · exact h.2.2.2.1 c h1
  · rcases List.mem_cons.mp h1 with h2 | h2
    · subst h2; decide
    · rcases List.mem_cons.mp h2 with h3 | h3
      · subst h3; decide
      · exact h.2.2.2.2 c h3

theorem lineNoNl_ne_nil (kv : String × String) : lineNoNl kv ≠ [] := by
  rw [lineNoNl]
  simp

theorem nl_not_mem_lineNoNl (kv : String × String) (h : GoodPair kv) :
    '\n' ∉ lineNoNl kv := by
  intro hc
  have := lineNoNl_noBreak kv h '\n' hc
  simp [isLineBreak] at this

theorem leadsWith3_ext (L : List Char) (c : Char) (r : List Char)
    (h : leadsWith dashes3 L = false) (hc : c ≠ '-') :
    leadsWith dashes3 (L ++ c :: r) = false := by
  have hc2 : ('-' = c) = False := by simp [Ne.symm hc]
  rcases L with _ | ⟨a, _ | ⟨b, _ | ⟨d, L2⟩⟩⟩
  · simp [dashes3, leadsWith, hc2]
  · simp [dashes3, leadsWith, hc2]
  · simp [dashes3, leadsWith, hc2]
  · simp only [dashes3, leadsWith] at h ⊢
    simpa using by simpa using h

theorem splitOnPat_nlDashes_append (a b : List Char) (h : '\n' ∉ a) :
    splitOnPat nlDashes (a ++ b) =
      (splitOnPat nlDashes b).map (fun pq => (a ++ pq.1, pq.2)) :=
  splitOnPat_append_left ['-', '-', '-'] a b h

theorem tailSplit :
    ∀ (rest : List (String × String)),
      (∀ kv ∈ rest, GoodPair kv ∧ leadsWith dashes3 kv.1.data = false) →
      splitOnPat nlDashes ('\n' :: tailBlock rest) = some (groupTail rest, ['\n']) := by
  intro rest
  induction rest with
  | nil =>
    intro _
    decide
  | cons kv rest ih =>
    intro h
    obtain ⟨hgp, hlw⟩ := h kv (List.mem_cons_self _ _)
    have hrest := fun e he => h e (List.mem_cons_of_mem kv he)
    show splitOnPat nlDashes ('\n' :: (lineNoNl kv ++ '\n' :: tailBlock rest)) = _
    have hz : leadsWith dashes3
        (kv.1.data ++ ':' :: (' ' :: (kv.2.data ++ '\n' :: tailBlock rest))) = false :=
      leadsWith3_ext kv.1.data ':' _ hlw (by decide)
    rw [splitOnPat_cons, if_neg ?hneg]
    case hneg =>
      intro habs
      rw [show leadsWith nlDashes ('\n' :: (lineNoNl kv ++ '\n' :: tailBlock rest)) =
          leadsWith dashes3 (lineNoNl kv ++ '\n' :: tailBlock rest) from by
        simp [nlDashes, dashes3, leadsWith]] at habs
      rw [show lineNoNl kv ++ '\n' :: tailBlock rest =
          kv.1.data ++ ':' :: (' ' :: (kv.2.data ++ '\n' :: tailBlock rest)) from by
        simp [lineNoNl, List.append_assoc]] at habs
      rw [hz] at habs
      exact Bool.false_ne_true habs
    rw [splitOnPat_nlDashes_append _ _ (nl_not_mem_lineNoNl kv hgp), ih hrest]
    rfl

theorem matchAfterWs_nonspace (c : Char) (r : List Char) (h : isPySpace c = false) :
    matchAfterWs (c :: r) = none := by
  unfold matchAfterWs
  rw [if_neg (by simp [h])]

theorem matchAfterWs_nl_head (c : Char) (r : List Char) (hc : isPySpace c = false) :
    matchAfterWs ('\n' :: c :: r) = splitOnPat nlDashes (c :: r) := by
  unfold matchAfterWs
  rw [if_pos (by decide), matchAfterWs_nonspace c r hc]
  rfl

theorem foldl_parseLine_rebuild :
    ∀ (m acc : List (String × String)), (∀ kv ∈ m, GoodPair kv) →
      ((m.map Prod.fst).Nodup) →
      (∀ kv ∈ m, acc.any (fun e => e.1 = kv.1) = false) →
      (m.map lineNoNl).foldl parseLine acc = acc ++ m := by
  intro m
  induction m with
  | nil => intro acc _ _ _; simp
  | cons kv m ih =>
    intro acc hgp hnd hfresh
    rw [List.map_cons, List.foldl_cons]
    have hkv := hgp kv (List.mem_cons_self _ _)
    have hpl : parseLine acc (lineNoNl kv) = acc ++ [(kv.1, kv.2)] := by
      unfold parseLine
      have hsp : splitOnPat [':'] (lineNoNl kv) = some (kv.1.data, ' ' :: kv.2.data) := by
        show splitOnPat [':'] (kv.1.data ++ ':' :: ' ' :: kv.2.data) = _
        exact splitOnPat_colon _ _ hkv.2.2.1
      rw [hsp]
      show dictInsert acc (String.mk (pyStrip kv.1.data))
          (String.mk (pyStrip (' ' :: kv.2.data))) = _
      rw [pyStrip_eq_self _ hkv.1, pyStrip_cons_space ' ' _ (by decide),
        pyStrip_eq_self _ hkv.2.1]
      exact dictInsert_fresh acc kv.1 kv.2 (hfresh kv (List.mem_cons_self _ _))
    rw [hpl, ih (acc ++ [(kv.1, kv.2)])
      (fun e he => hgp e (List.mem_cons_of_mem kv he))
      (by simpa using (List.nodup_cons.mp (by simpa using hnd)).2) ?fresh]
    · simp
    case fresh =>
      intro kv2 h2
      rw [List.any_append]
      have h1 : acc.any (fun e => e.1 = kv2.1) = false :=
        hfresh kv2 (List.mem_cons_of_mem kv h2)
      have hne : kv.1 ≠ kv2.1 := by
        intro he
        have hnotin : kv.1 ∉ m.map Prod.fst := (List.nodup_cons.mp (by simpa using hnd)).1
        exact hnotin (he ▸ List.mem_map.mpr ⟨kv2, h2, rfl⟩)
      simp [h1, hne]

theorem reparse_serializeFM (m : List (String × String)) (hg : GoodMap m)
    (hlate : noLateDashKeys m = true) :
    (extract_frontmatter (serializeFM m)).1 = m := by
  cases m with
  | nil => decide
  | cons e rest =>
    have hge : GoodPair e := hg.1 e (List.mem_cons_self _ _)
    have hgrest : ∀ kv ∈ rest, GoodPair kv := fun kv h => hg.1 kv (List.mem_cons_of_mem _ h)
    have hlate2 : ∀ kv ∈ rest, leadsWith dashes3 kv.1.data = false := by
      intro kv h
      have hall : rest.all (fun kv => !leadsWith dashes3 kv.1.data) = true := hlate
      have h2 := List.all_eq_true.mp hall kv h
      simpa using h2
    obtain ⟨c0, r0, hle, hc0⟩ :
        ∃ c0 r0, lineNoNl e = c0 :: r0 ∧ isPySpace c0 = false := by
      rcases stripped_head_nonspace e.1.data hge.1 with hk | ⟨c, r, hkeq, hcsp⟩
      · exact ⟨':', ' ' :: e.2.data, by simp [lineNoNl, hk], by decide⟩
      · exact ⟨c, r ++ ':' :: ' ' :: e.2.data, by simp [lineNoNl, hkeq], hcsp⟩
    have hmatch : matchFM (serializeFM (e :: rest)).data =
        some (lineNoNl e ++ groupTail rest, ['\n']) := by
      rw [serializeFM_data, matchFM, if_pos (by simp [dashes3, leadsWith])]
      show matchAfterWs ('\n' :: (lineNoNl e ++ '\n' :: tailBlock rest)) = _
      rw [show lineNoNl e ++ '\n' :: tailBlock rest = c0 :: (r0 ++ '\n' :: tailBlock rest) from by
        rw [hle, List.cons_append]]
      rw [matchAfterWs_nl_head c0 _ hc0]
      rw [show c0 :: (r0 ++ '\n' :: tailBlock rest) = lineNoNl e ++ '\n' :: tailBlock rest from by
        rw [hle, List.cons_append]]
      rw [splitOnPat_nlDashes_append _ _ (nl_not_mem_lineNoNl e hge),
        tailSplit rest (fun kv h => ⟨hgrest kv h, hlate2 kv h⟩)]
      rfl
    unfold extract_frontmatter
    rw [hmatch]
    show (splitlinesL (lineNoNl e ++ groupTail rest)).foldl parseLine [] = e :: rest
    rw [show splitlinesL (lineNoNl e ++ groupTail rest) = lineNoNl e :: rest.map lineNoNl from by
      rw [splitlinesL, sg_append_noBreak _ [] _ (lineNoNl_noBreak e hge), List.append_nil]
      exact sg_groupTail rest (lineNoNl e) (lineNoNl_ne_nil e) (lineNoNl_noBreak e hge)
        (fun kv h => ⟨lineNoNl_noBreak kv (hgrest kv h), lineNoNl_ne_nil kv⟩)]
    rw [show lineNoNl e :: rest.map lineNoNl = (e :: rest).map lineNoNl from by
      rw [List.map_cons]]
    rw [foldl_parseLine_rebuild (e :: rest) [] hg.1 hg.2 (by simp)]
    simp

/-- C2: processing exactly the one note of the example and flushing (with
no filesystem failure) produces the single output file `2025-07-21.md`
with exactly the stated content. -/
theorem c2_single_note_aggregation :
    write_aggregated_files (fun _ => false) (process_markdown_file [] c2note) =
      ([("2025-07-21.md", c2out)], none) := by decide

/-- C3: a `completed` value of `"true"` yields checkbox `[x]`; an absent
or empty `completed` value (so `pyGet` returns `""`) yields the empty
checkbox token, and the event line then begins `-  {title}` with two
spaces. -/
theorem c3_completed_checkbox (fm : List (String × String)) :
    (pyGet fm "completed" "" = "true" →
      mkCheckbox (pyGet fm "completed" "") = "[x]") ∧
    (pyGet fm "completed" "" = "" →
      mkCheckbox (pyGet fm "completed" "") = "" ∧
      ∃ r, mkEventLine fm = "-  " ++ (pyGet fm "title" "Untitled" ++ r)) := by
  constructor
  · intro h
    rw [h]; decide
  · intro h
    have hcb : mkCheckbox "" = "" := by decide
    refine ⟨by rw [h]; exact hcb, ?_⟩
    simp only [mkEventLine, h, hcb, str_append_assoc, dash_space_prefix]
    by_cases hd : pyGet fm "endDate" "" ≠ ""
    · rw [if_pos hd]
      exact ⟨_, rfl⟩
    · rw [if_neg hd]
      exact ⟨_, rfl⟩

/-- C3 witness at a concrete frontmatter mapping. -/
theorem c3_completed_checkbox_witness :
    mkCheckbox (pyGet [("title", "Call"), ("completed", "true")] "completed" "") = "[x]" ∧
    ∃ r, mkEventLine [("title", "Call")] = "-  " ++ ("Call" ++ r) :=
  ⟨(c3_completed_checkbox [("title", "Call"), ("completed", "true")]).1 (by decide),
   ((c3_completed_checkbox [("title", "Call")]).2 (by decide)).2⟩

/-- C4: every non-empty `completed` string — including `"false"` and
`"0"` — yields checkbox `[x]` (every non-empty Python string is truthy),
and for every possible value the checkbox is `[x]` or the empty string:
`[ ]` is never emitted. -/
theorem c4_checkbox_never_empty_box :
    (∀ s : String, s ≠ "" → mkCheckbox s = "[x]") ∧
    (∀ s : String, mkCheckbox s = "[x]" ∨ mkCheckbox s = "") := by
  constructor
  · intro s h
    simp [mkCheckbox, h]
  · intro s
    by_cases h : s = "" <;> simp [mkCheckbox, h]

/-- C4 witness: `"false"` and `"0"` both yield `[x]`. -/
theorem c4_checkbox_never_empty_box_witness :
    mkCheckbox "false" = "[x]" ∧ (mkCheckbox "0" = "[x]" ∨ mkCheckbox "0" = "") :=
  ⟨c4_checkbox_never_empty_box.1 "false" (by decide),
   c4_checkbox_never_empty_box.2 "0"⟩

/-- C5: the frontmatter parser is total (it is a Lean function), and for
every input on which the delimiter regex does not match — in particular
every input not starting with `---` — it returns the empty mapping and
the original text unmodified as the body. -/
theorem c5_parser_total_on_malformed (t : String) :
    (matchFM t.data = none → extract_frontmatter t = ([], t)) ∧
    (leadsWith dashes3 t.data = false → extract_frontmatter t = ([], t)) := by
  constructor
  · intro h
    unfold extract_frontmatter
    rw [h]
  · intro h
    have hm : matchFM t.data = none := by
      unfold matchFM
      rw [h]
      rfl
    unfold extract_frontmatter
    rw [hm]

/-- C5 witness at a concrete malformed input. -/
theorem c5_parser_total_on_malformed_witness :
    extract_frontmatter "no frontmatter here" = ([], "no frontmatter here") :=
  (c5_parser_total_on_malformed "no frontmatter here").2 (by decide)

/-- C7: every event produced by `gen_recurring_event` (for any value of
the random draws, with the weekly day sample non-empty as
`random.sample(DOW[1:6], randint(1,3))` guarantees) has exactly one
recurrence dimension populated: weekly, monthly, or yearly. -/
theorem c7_exactly_one_recurrence_dimension (r : ℚ) (days : List String)
    (startW durW domM startM durM monthY domY startY durY : Nat)
    (tz cat sub title : String) (hdays : days ≠ []) :
    ((weeklyDimB (gen_recurring_event r days startW durW domM startM durM monthY domY startY durY tz cat sub title) = true ∧
      monthlyDimB (gen_recurring_event r days startW durW domM startM durM monthY domY startY durY tz cat sub title) = false ∧
      yearlyDimB (gen_recurring_event r days startW durW domM startM durM monthY domY startY durY tz cat sub title) = false) ∨
     (weeklyDimB (gen_recurring_event r days startW durW domM startM durM monthY domY startY durY tz cat sub title) = false ∧
      monthlyDimB (gen_recurring_event r days startW durW domM startM durM monthY domY startY durY tz cat sub title) = true ∧
      yearlyDimB (gen_recurring_event r days startW durW domM startM durM monthY domY startY durY tz cat sub title) = false) ∨
     (weeklyDimB (gen_recurring_event r days startW durW domM startM durM monthY domY startY durY tz cat sub title) = false ∧
      monthlyDimB (gen_recurring_event r days startW durW domM startM durM monthY domY startY durY tz cat sub title) = false ∧
      yearlyDimB (gen_recurring_event r days startW durW domM startM durM monthY domY startY durY tz cat sub title) = true)) := by
  unfold gen_recurring_event
  by_cases h1 : r < 3 / 5
  · left
    simp [h1, weeklyDimB, monthlyDimB, yearlyDimB, truthyList, hdays]
  · by_cases h2 : r < 17 / 20
    · right; left
      simp [h1, h2, weeklyDimB, monthlyDimB, yearlyDimB, truthyList]
    · right; right
      simp [h1, h2, weeklyDimB, monthlyDimB, yearlyDimB, truthyList]

/-- C7 witness at a concrete weekly draw. -/
theorem c7_exactly_one_recurrence_dimension_witness :
    ((weeklyDimB (gen_recurring_event 0 ["M"] 480 30 1 1080 60 1 1 540 60 "Europe/London" "Work" "Team" "Standup") = true ∧
      monthlyDimB (gen_recurring_event 0 ["M"] 480 30 1 1080 60 1 1 540 60 "Europe/London" "Work" "Team" "Standup") = false ∧
      yearlyDimB (gen_recurring_event 0 ["M"] 480 30 1 1080 60 1 1 540 60 "Europe/London" "Work" "Team" "Standup") = false) ∨
     (weeklyDimB (gen_recurring_event 0 ["M"] 480 30 1 1080 60 1 1 540 60 "Europe/London" "Work" "Team" "Standup") = false ∧
      monthlyDimB (gen_recurring_event 0 ["M"] 480 30 1 1080 60 1 1 540 60 "Europe/London" "Work" "Team" "Standup") = true ∧
      yearlyDimB (gen_recurring_event 0 ["M"] 480 30 1 1080 60 1 1 540 60 "Europe/London" "Work" "Team" "Standup") = false) ∨
     (weeklyDimB (gen_recurring_event 0 ["M"] 480 30 1 1080 60 1 1 540 60 "Europe/London" "Work" "Team" "Standup") = false ∧
      monthlyDimB (gen_recurring_event 0 ["M"] 480 30 1 1080 60 1 1 540 60 "Europe/London" "Work" "Team" "Standup") = false ∧
      yearlyDimB (gen_recurring_event 0 ["M"] 480 30 1 1080 60 1 1 540 60 "Europe/London" "Work" "Team" "Standup") = true)) :=
  c7_exactly_one_recurrence_dimension 0 ["M"] 480 30 1 1080 60 1 1 540 60
    "Europe/London" "Work" "Team" "Standup" (by decide)

/-- C8: the weekly filename codec: the `["M","W","F"]` example yields
exactly `(Every M,W,F) Work - Team - Standup.md`, and in general a weekly
recurring event's filename is `(Every ` + the weekday codes joined by
commas in chosen order + `) ` + the constructed title + `.md`. -/
theorem c8_weekly_filename :
    (recurring_filename
        ⟨some ["M", "W", "F"], none, none, some 540, some 570, "Europe/Budapest",
          some "Work", some "Team", "Standup"⟩ =
      "(Every M,W,F) Work - Team - Standup.md") ∧
    (∀ (ev : RecurringEvent) (l : List String), ev.days_of_week = some l → l ≠ [] →
      recurring_filename ev =
        "(Every " ++ String.intercalate "," l ++ ") " ++
          build_constructed_title ev.category ev.subcategory ev.title ++ ".md") := by
  constructor
  · decide
  · intro ev l h hne
    unfold recurring_filename
    rw [h]
    simp [truthyList, hne]

/-- C8 witness at a concrete weekly event. -/
theorem c8_weekly_filename_witness :
    recurring_filename
        ⟨some ["T", "R"], none, none, some 480, some 510, "Asia/Tokyo",
          some "Fitness", some "Gym", "Gym Session"⟩ =
      "(Every " ++ String.intercalate "," ["T", "R"] ++ ") " ++
        build_constructed_title (some "Fitness") (some "Gym") "Gym Session" ++ ".md" :=
  c8_weekly_filename.2
    ⟨some ["T", "R"], none, none, some 480, some 510, "Asia/Tokyo",
      some "Fitness", some "Gym", "Gym Session"⟩ ["T", "R"] rfl (by decide)

/-- C9: a recurring event with `day_of_month` set (truthy) and neither
`days_of_week` nor `month` gives the monthly filename, and one with both
`month` (1–12) and `day_of_month` set gives the yearly filename with the
abbreviation from the fixed table `calendar_month_abbr` at index 1–12. -/
theorem c9_monthly_yearly_filename :
    (∀ (ev : RecurringEvent) (d : Nat), truthyList ev.days_of_week = false →
      ev.month = none → ev.day_of_month = some d → d ≠ 0 →
      recurring_filename ev =
        "(Every month on the " ++ toString d ++ ") " ++
          build_constructed_title ev.category ev.subcategory ev.title ++ ".md") ∧
    (∀ (ev : RecurringEvent) (m d : Nat), truthyList ev.days_of_week = false →
      ev.month = some m → 1 ≤ m → m ≤ 12 → ev.day_of_month = some d → d ≠ 0 →
      recurring_filename ev =
        "(Every year on " ++ calendar_month_abbr.getD m "" ++ " " ++ toString d ++ ") " ++
          build_constructed_title ev.category ev.subcategory ev.title ++ ".md") := by
  constructor
  · intro ev d hw hm hd hd0
    unfold recurring_filename
    rw [hw, hm, hd]
    simp [truthyNat, hd0]
  · intro ev m d hw hm hm1 _hm2 hd hd0
    unfold recurring_filename
    rw [hw, hm, hd]
    have hm0 : m ≠ 0 := by omega
    simp [truthyNat, hd0, hm0]

/-- C9 witness at concrete monthly and yearly events. -/
theorem c9_monthly_yearly_filename_witness :
    (recurring_filename
        ⟨none, none, some 5, some 1080, some 1140, "Europe/London",
          some "Errands", some "Home", "Grocery Run"⟩ =
      "(Every month on the " ++ toString 5 ++ ") " ++
        build_constructed_title (some "Errands") (some "Home") "Grocery Run" ++ ".md") ∧
    (recurring_filename
        ⟨none, some 3, some 14, some 540, some 600, "Asia/Tokyo",
          some "Personal", some "Family", "Reading"⟩ =
      "(Every year on " ++ calendar_month_abbr.getD 3 "" ++ " " ++ toString 14 ++ ") " ++
        build_constructed_title (some "Personal") (some "Family") "Reading" ++ ".md") :=
  ⟨c9_monthly_yearly_filename.1
      ⟨none, none, some 5, some 1080, some 1140, "Europe/London",
        some "Errands", some "Home", "Grocery Run"⟩ 5 (by decide) rfl rfl (by decide),
   c9_monthly_yearly_filename.2
      ⟨none, some 3, some 14, some 540, some 600, "Asia/Tokyo",
        some "Personal", some "Family", "Reading"⟩ 3 14 (by decide) rfl (by decide)
      (by decide) rfl (by decide)⟩

/-- C10: every timeboxed (`allDay=false`) single event produced by
`gen_single_event` under the generator's draw ranges has
`start < end < 1440` (both within one day), and every all-day event has
no start and no end. -/
theorem c10_single_event_time_bounds (d : String) (allDayDraw : Bool)
    (sod off dur : Nat) (tz cat sub title : String)
    (hsod : sod ≤ 10 * 60)
    (hoff : off ∈ [0, 15, 30, 45, 60, 90, 120])
    (hdur : dur ∈ [30, 45, 60, 75, 90, 120, 150]) :
    (allDayDraw = true →
      (gen_single_event d allDayDraw sod off dur tz cat sub title).start = none ∧
      (gen_single_event d allDayDraw sod off dur tz cat sub title).stop = none) ∧
    (allDayDraw = false →
      ∃ s e, (gen_single_event d allDayDraw sod off dur tz cat sub title).start = some s ∧
        (gen_single_event d allDayDraw sod off dur tz cat sub title).stop = some e ∧
        s < e ∧ s < 1440 ∧ e < 1440) := by
  have hoffB : off ≤ 120 := by
    simp only [List.mem_cons, List.not_mem_nil, or_false] at hoff
    rcases hoff with rfl | rfl | rfl | rfl | rfl | rfl | rfl <;> omega
  have hdurB : 30 ≤ dur := by
    simp only [List.mem_cons, List.not_mem_nil, or_false] at hdur
    rcases hdur with rfl | rfl | rfl | rfl | rfl | rfl | rfl <;> omega
  constructor
  · intro h
    subst h
    simp [gen_single_event]
  · intro h
    subst h
    refine ⟨sod + off, min (sod + off + dur) (22 * 60), ?_, ?_, ?_, ?_, ?_⟩
    · simp [gen_single_event]
    · simp [gen_single_event]
    · omega
    · omega
    · omega

/-- C10 witness at concrete draws (one timeboxed, one all-day). -/
theorem c10_single_event_time_bounds_witness :
    ∃ s e, (gen_single_event "2025-07-21" false 600 120 150 "Europe/Budapest" "Work" "Team" "Deep Work").start = some s ∧
      (gen_single_event "2025-07-21" false 600 120 150 "Europe/Budapest" "Work" "Team" "Deep Work").stop = some e ∧
      s < e ∧ s < 1440 ∧ e < 1440 :=
  (c10_single_event_time_bounds "2025-07-21" false 600 120 150 "Europe/Budapest"
    "Work" "Team" "Deep Work" (by decide) (by decide) (by decide)).2 rfl

/-- C1 counterexample: an aggregate with the two date keys `2025-07-21`
and `2025-07-22`, where the write of `2025-07-21.md` fails: the error
propagates out of `write_aggregated_files` and no file at all is written
— in particular the other date's file is not, contrary to the claim. -/
theorem c1_counterexample :
    ([("2025-07-21", ⟨["- a"], []⟩), ("2025-07-22", ⟨["- b"], []⟩)] :
        List (String × DayData)).map Prod.fst = ["2025-07-21", "2025-07-22"] ∧
    (write_aggregated_files (fun p => p = "2025-07-21.md")
        [("2025-07-21", ⟨["- a"], []⟩), ("2025-07-22", ⟨["- b"], []⟩)]).2 =
      some "2025-07-21.md" ∧
    (write_aggregated_files (fun p => p = "2025-07-21.md")
        [("2025-07-21", ⟨["- a"], []⟩), ("2025-07-22", ⟨["- b"], []⟩)]).1 = [] := by
  decide

/-- C1 (amended): a write failure during the flush propagates out of
`write_aggregated_files` and aborts the rest of the run: files for dates
iterated before the failing one are written, and no file is written for
the failing date or any date after it. -/
theorem c1_failure_aborts_flush (fail : String → Bool)
    (pre post : List (String × DayData)) (d : String) (data : DayData)
    (hpre : ∀ e ∈ pre, fail (e.1 ++ ".md") = false)
    (hd : fail (d ++ ".md") = true) :
    write_aggregated_files fail (pre ++ (d, data) :: post) =
      (pre.map (fun e => (e.1 ++ ".md", render_day e.2)), some (d ++ ".md")) := by
  induction pre with
  | nil =>
    simp [write_aggregated_files, hd]
  | cons e pre ih =>
    obtain ⟨date, dd⟩ := e
    have hfe : fail (date ++ ".md") = false := hpre (date, dd) (List.mem_cons_self _ _)
    have hrest : ∀ e ∈ pre, fail (e.1 ++ ".md") = false := fun e he =>
      hpre e (List.mem_cons_of_mem _ he)
    simp only [List.cons_append, write_aggregated_files, hfe, Bool.false_eq_true,
      if_false, List.append_eq, List.map_cons]
    rw [ih hrest]

/-- C1 (amended) witness: a three-date aggregate failing on the middle
date writes only the first date's file. -/
theorem c1_failure_aborts_flush_witness :
    write_aggregated_files (fun p => p = "2025-07-21.md")
        ([("2025-07-20", ⟨["- z"], []⟩)] ++ ("2025-07-21", ⟨["- a"], []⟩) ::
          [("2025-07-22", ⟨["- b"], []⟩)]) =
      ([("2025-07-20.md", render_day ⟨["- z"], []⟩)], some "2025-07-21.md") :=
  c1_failure_aborts_flush (fun p => p = "2025-07-21.md")
    [("2025-07-20", ⟨["- z"], []⟩)] [("2025-07-22", ⟨["- b"], []⟩)]
    "2025-07-21" ⟨["- a"], []⟩ (by decide) (by decide)

/-- C6 counterexample: the block `---\na: 1\r---x: v\n---\n` is a valid
frontmatter block (the delimiter regex matches) and parses to the two
pairs `("a","1")` and `("---x","v")`; re-serializing that mapping as flat
`key: value` lines between `---` delimiters and re-parsing loses the
`("---x","v")` pair, so the round-trip fails. -/
theorem c6_roundtrip_counterexample :
    (matchFM c6block.data).isSome = true ∧
    ("---x", "v") ∈ (extract_frontmatter c6block).1 ∧
    ("---x", "v") ∉ (extract_frontmatter (serializeFM (extract_frontmatter c6block).1)).1 := by
  decide

/-- C6 (amended): for every frontmatter block none of whose parsed keys
other than the first begins with `---`, parsing, re-serializing the
extracted mapping as flat `key: value` lines between `---` delimiters,
and parsing again yields exactly the same mapping (keys, values and even
order preserved). -/
theorem c6_roundtrip_amended (t : String)
    (h : noLateDashKeys (extract_frontmatter t).1 = true) :
    (extract_frontmatter (serializeFM (extract_frontmatter t).1)).1 =
      (extract_frontmatter t).1 :=
  reparse_serializeFM _ (good_extract t) h

/-- C6 (amended) witness at the example note. -/
theorem c6_roundtrip_amended_witness :
    (extract_frontmatter (serializeFM (extract_frontmatter c2note).1)).1 =
      (extract_frontmatter c2note).1 :=
  c6_roundtrip_amended c2note (by decide)

end FullCal
